import Mathlib

/-!
Verification of the Fides Vera RAG pipeline core.

Shallow embedding of the retrieval, conversation-store and orchestrator
code. Scores produced by the keyword search are exact rationals; the
cosine-similarity score involves a square root and is modelled over the
real numbers. JavaScript floating point arithmetic is modelled by exact
arithmetic. The stable JavaScript Array.prototype.sort (stable for a
consistent comparator since ES2019) is modelled by a stable insertion
sort, which has the same observable behaviour.
-/

namespace FidesVera

/-! ## Data model (shared/schema) -/

structure Document where
  id : Nat
  title : String
  content : String
  source : String
  category : String
deriving Repr, DecidableEq

/-- A citation snapshot of a document together with a relevance score.
The score type is a parameter: the keyword search produces exact
rational scores, the cosine similarity search produces real scores. -/
structure SourceRef (α : Type) where
  id : Nat
  title : String
  content : String
  source : String
  category : String
  relevanceScore : α
deriving Repr, DecidableEq

def SourceRef.ofDoc {α : Type} (d : Document) (score : α) : SourceRef α :=
  { id := d.id, title := d.title, content := d.content, source := d.source,
    category := d.category, relevanceScore := score }

structure Chat where
  id : Nat
  title : String
  userId : Option Nat
  createdAt : Nat
deriving Repr, DecidableEq

structure Message where
  id : Nat
  chatId : Nat
  role : String
  content : String
  sources : Option (List (SourceRef ℚ))
  createdAt : Nat
deriving Repr, DecidableEq

/-- A role-tagged message as sent to the completion provider. -/
structure ChatMsg where
  role : String
  content : String
deriving Repr, DecidableEq

/-! ## JavaScript string primitives

`query.trim()`, `query.toLowerCase()`, `query.split(/\s+/)` and
`text.includes(sub)` are modelled character by character. -/

def isWsChar (c : Char) : Bool :=
  c == ' ' || c == '\t' || c == '\n' || c == '\r'

def jsTrim (s : String) : String :=
  String.mk (((s.toList.dropWhile isWsChar).reverse.dropWhile isWsChar).reverse)

def jsToLower (s : String) : String :=
  String.mk (s.toList.map Char.toLower)

/-- Worker for the split on the regular expression of one or more
whitespace characters: a single pass tracking whether the previous
character was whitespace, so that a run of whitespace produces one
boundary. A leading run of whitespace yields a leading empty token and a
trailing run a trailing empty token, exactly as String.prototype.split
does. -/
def splitWsGo : List Char → List Char → Bool → List (List Char)
  | [], acc, _ => [acc.reverse]
  | c :: rest, acc, prevWs =>
    if isWsChar c then
      if prevWs then splitWsGo rest [] true
      else acc.reverse :: splitWsGo rest [] true
    else
      splitWsGo rest (c :: acc) false

def jsSplitWs (s : String) : List String :=
  (splitWsGo s.toList [] false).map (fun cs => String.mk cs)

def startsWithList : List Char → List Char → Bool
  | _, [] => true
  | [], _ :: _ => false
  | c :: cs, p :: ps => c == p && startsWithList cs ps

def containsSubList : List Char → List Char → Bool
  | [], pat => pat.isEmpty
  | c :: t, pat => startsWithList (c :: t) pat || containsSubList t pat

/-- text.includes(sub) of JavaScript strings. -/
def jsIncludes (text sub : String) : Bool :=
  containsSubList text.toList sub.toList

/-! ## Stable sort

Array.prototype.sort with a consistent numeric comparator is a stable
sort; any stable sort has the same observable result, so the JavaScript
sort is modelled by a stable insertion sort. `before y x = true` reads:
the comparator orders `y` strictly before `x`, so an element being
inserted moves past `y`. -/

def stableInsert {α : Type} (before : α → α → Bool) (x : α) : List α → List α
  | [] => [x]
  | y :: ys => if before y x then y :: stableInsert before x ys else x :: y :: ys

def stableSort {α : Type} (before : α → α → Bool) (l : List α) : List α :=
  l.foldr (stableInsert before) []

/-- Sort source references by descending relevance score, ties keeping
their input order: the comparator (a, b) => b.relevanceScore - a.relevanceScore. -/
def sortDescByScore {α : Type} [LinearOrder α] (l : List (SourceRef α)) : List (SourceRef α) :=
  stableSort (fun u v => decide (v.relevanceScore < u.relevanceScore)) l

/-- Sort messages by ascending creation time, stable:
the comparator (a, b) => a.createdAt - b.createdAt. -/
def sortAscByCreated (l : List Message) : List Message :=
  stableSort (fun u v => decide (u.createdAt < v.createdAt)) l

/-- Sort messages by descending creation time, stable:
the comparator (a, b) => b.createdAt - a.createdAt. -/
def sortDescByCreated (l : List Message) : List Message :=
  stableSort (fun u v => decide (v.createdAt < u.createdAt)) l

/-- Sort chats by descending creation time, stable. -/
def sortChatsDescByCreated (l : List Chat) : List Chat :=
  stableSort (fun u v => decide (v.createdAt < u.createdAt)) l

/-! ## VectorStore (server/services/vectorStore.ts)

The store is modelled by its two backing arrays: documentVectors and
documents. -/

structure VectorStore where
  documentVectors : List (Document × List ℚ)
  documents : List Document

/-- VectorStore.searchByKeywords scoring of one document against the
split keyword list. The match count loop increments once per keyword of
length greater than two contained in the lower-cased title plus content;
the score divides by the length of the whole keyword list. -/
def scoreDocument (keywords : List String) (d : Document) : SourceRef ℚ :=
  let documentText := jsToLower (d.title ++ " " ++ d.content)
  let matchCount : Nat :=
    keywords.foldl
      (fun acc kw => if kw.length > 2 && jsIncludes documentText kw then acc + 1 else acc) 0
  let score : ℚ := if keywords.length > 0 then (matchCount : ℚ) / (keywords.length : ℚ) else 0
  SourceRef.ofDoc d score

/-- VectorStore.searchByKeywords. -/
def searchByKeywords (docs : List Document) (query : String) (limit : Nat) :
    List (SourceRef ℚ) :=
  if jsTrim query = "" then
    (docs.take limit).map (fun d => SourceRef.ofDoc d 1)
  else
    let keywords := jsSplitWs (jsToLower query)
    (sortDescByScore (docs.map (scoreDocument keywords))).take limit

/-- VectorStore.cosineSimilarity. The source accumulates the dot product
and the two squared norms in a single index loop over vectors of equal
length; here each accumulation is its own fold, which agrees because the
branch is only reached when the lengths are equal. The thrown Error on a
length mismatch is the Except.error value. -/
noncomputable def cosineSimilarity (vecA vecB : List ℚ) : Except String ℝ :=
  if vecA.length ≠ vecB.length then
    Except.error "Vectors must be of the same length"
  else
    let dotProduct : ℚ := (vecA.zip vecB).foldl (fun acc p => acc + p.1 * p.2) 0
    let normA : ℚ := vecA.foldl (fun acc x => acc + x * x) 0
    let normB : ℚ := vecB.foldl (fun acc x => acc + x * x) 0
    if normA = 0 ∨ normB = 0 then Except.ok 0
    else Except.ok ((dotProduct : ℝ) / (Real.sqrt (normA : ℝ) * Real.sqrt (normB : ℝ)))

def castRef (r : SourceRef ℚ) : SourceRef ℝ :=
  { id := r.id, title := r.title, content := r.content, source := r.source,
    category := r.category, relevanceScore := (r.relevanceScore : ℝ) }

/-- Scoring of one documentVectors entry inside searchSimilarDocuments:
the map callback computes the cosine similarity and builds the source
reference; a thrown length-mismatch error escapes the callback. -/
noncomputable def scoreEntry (queryVector : List ℚ) (dv : Document × List ℚ) :
    Except String (SourceRef ℝ) :=
  match cosineSimilarity queryVector dv.2 with
  | Except.error e => Except.error e
  | Except.ok score => Except.ok (SourceRef.ofDoc dv.1 score)

/-- List.map in which a thrown error aborts the whole traversal, the
semantics of Array.prototype.map over a callback that can throw. -/
def mapExcept {α β ε : Type} (f : α → Except ε β) : List α → Except ε (List β)
  | [] => Except.ok []
  | a :: t =>
    match f a with
    | Except.error e => Except.error e
    | Except.ok b =>
      match mapExcept f t with
      | Except.error e => Except.error e
      | Except.ok bs => Except.ok (b :: bs)

/-- VectorStore.searchSimilarDocuments. -/
noncomputable def searchSimilarDocuments (s : VectorStore) (queryVector : List ℚ)
    (limit : Nat) : Except String (List (SourceRef ℝ)) :=
  if s.documentVectors.length = 0 then
    Except.ok ((searchByKeywords s.documents "" limit).map castRef)
  else
    match mapExcept (scoreEntry queryVector) s.documentVectors with
    | Except.error e => Except.error e
    | Except.ok results =>
        Except.ok ((stableSort (fun u v => decide (v.relevanceScore < u.relevanceScore)) results).take limit)

/-! ## MemStorage (server/storage.ts)

The Map of messages keyed by id is modelled as the list of its values in
insertion order; Map.set with a fresh key appends, Map.delete removes the
entry with the given key. -/

structure MsgStore where
  chats : List Chat
  messages : List Message
  nextMessageId : Nat
deriving Repr, DecidableEq

/-- MemStorage.getChat. -/
def getChat (st : MsgStore) (id : Nat) : Option Chat :=
  st.chats.find? (fun c => c.id == id)

/-- MemStorage.getMessagesByChatId: filter by chat, sort ascending by
creation time, and slice(-5), keeping only the five most recent. -/
def getMessagesByChatId (msgs : List Message) (chatId : Nat) : List Message :=
  let sorted := sortAscByCreated (msgs.filter (fun m => m.chatId == chatId))
  sorted.drop (sorted.length - 5)

/-- MemStorage.createMessage: assign the next id, stamp the creation
time, append to the message map. -/
def createMessage (st : MsgStore) (chatId : Nat) (role content : String)
    (sources : Option (List (SourceRef ℚ))) (now : Nat) : MsgStore × Message :=
  let m : Message :=
    { id := st.nextMessageId, chatId := chatId, role := role, content := content,
      sources := sources, createdAt := now }
  ({ st with messages := st.messages ++ [m], nextMessageId := st.nextMessageId + 1 }, m)

/-- MemStorage.deleteChat: delete the messages returned by
getMessagesByChatId for this chat, then delete the chat itself, returning
whether the chat existed. -/
def deleteChat (st : MsgStore) (id : Nat) : MsgStore × Bool :=
  let chatMessages := getMessagesByChatId st.messages id
  let deadIds := chatMessages.map (fun m => m.id)
  let existed := (st.chats.find? (fun c => c.id == id)).isSome
  ({ st with
      messages := st.messages.filter (fun m => !(deadIds.contains m.id)),
      chats := st.chats.filter (fun c => !(c.id == id)) },
   existed)

def MAX_MESSAGES_PER_CHAT : Nat := 20
def MAX_CHATS_PER_USER : Nat := 25
def MAX_MESSAGES_TOTAL : Nat := 500

/-- Grouping step of the eviction sweep: insert a message into the group
of its chat, keeping first-encounter order of chats and insertion order
inside a group. -/
def addToGroup : List (Nat × List Message) → Message → List (Nat × List Message)
  | [], m => [(m.chatId, [m])]
  | (k, g) :: rest, m =>
      if k = m.chatId then (k, g ++ [m]) :: rest else (k, g) :: addToGroup rest m

def groupByChat (msgs : List Message) : List (Nat × List Message) :=
  msgs.foldl addToGroup []

/-- Ids evicted from one chat group by cleanupOldMessages: nothing when
the group is within the cap, otherwise everything after the first
MAX_MESSAGES_PER_CHAT entries of the newest-first ordering. -/
def chatEvictIds (group : List Message) : List Nat :=
  if group.length ≤ MAX_MESSAGES_PER_CHAT then []
  else ((sortDescByCreated group).drop MAX_MESSAGES_PER_CHAT).map (fun m => m.id)

/-- MemStorage.cleanupOldMessages. -/
def cleanupOldMessages (msgs : List Message) : List Message :=
  let dead := (groupByChat msgs).foldl (fun acc g => acc ++ chatEvictIds g.2) []
  msgs.filter (fun m => !(dead.contains m.id))

/-- chat.userId || 1 of the chat grouping: undefined and the falsy id 0
both default to user 1. -/
def chatUserKey (c : Chat) : Nat :=
  match c.userId with
  | none => 1
  | some u => if u = 0 then 1 else u

def addChatToGroup : List (Nat × List Chat) → Chat → List (Nat × List Chat)
  | [], c => [(chatUserKey c, [c])]
  | (k, g) :: rest, c =>
      if k = chatUserKey c then (k, g ++ [c]) :: rest else (k, g) :: addChatToGroup rest c

def groupChatsByUser (chats : List Chat) : List (Nat × List Chat) :=
  chats.foldl addChatToGroup []

def userEvictChatIds (group : List Chat) : List Nat :=
  if group.length ≤ MAX_CHATS_PER_USER then []
  else ((sortChatsDescByCreated group).drop MAX_CHATS_PER_USER).map (fun c => c.id)

/-- MemStorage.cleanupOldChats: per user keep the newest
MAX_CHATS_PER_USER chats; deleting a chat also deletes every message
bearing its chat id. -/
def cleanupOldChats (chats : List Chat) (msgs : List Message) :
    List Chat × List Message :=
  let deadChats := (groupChatsByUser chats).foldl (fun acc g => acc ++ userEvictChatIds g.2) []
  (chats.filter (fun c => !(deadChats.contains c.id)),
   msgs.filter (fun m => !(deadChats.contains m.chatId)))

/-- MemStorage.cleanupOldData: per-chat trim, per-user chat trim, then a
global trim of the oldest messages if still above MAX_MESSAGES_TOTAL. -/
def cleanupOldData (chats : List Chat) (msgs : List Message) :
    List Chat × List Message :=
  let msgs1 := cleanupOldMessages msgs
  let cm := cleanupOldChats chats msgs1
  if cm.2.length > MAX_MESSAGES_TOTAL then
    let sorted := sortAscByCreated cm.2
    let dead := (sorted.take (sorted.length - MAX_MESSAGES_TOTAL)).map (fun m => m.id)
    (cm.1, cm.2.filter (fun m => !(dead.contains m.id)))
  else
    cm

/-! ## RAGService (server/services/ragService.ts)

The completion provider is an external collaborator: it is passed in as a
function from the assembled message sequence to either a completion text
or a failure. -/

/-- Per-source context block: content truncated to 1000 characters with
an ellipsis marker, then title, content, source lines. -/
def sourceBlock (r : SourceRef ℚ) : String :=
  let truncatedContent :=
    if r.content.length > 1000 then r.content.take 1000 ++ "..." else r.content
  "Document: " ++ r.title ++ "\n" ++ "Content: " ++ truncatedContent ++ "\n" ++
    "Source: " ++ r.source ++ "\n"

/-- The joined relevant-context string over the top three keyword search
results, as built inside processQuery. -/
def ragContext (docs : List Document) (q : String) : String :=
  String.intercalate "\n" ((searchByKeywords docs q 3).map sourceBlock)

/-- The message sequence sent to the completion provider: the system
prompt extended with the relevant context, the last five history entries,
then the new user query. -/
def ragMessages (docs : List Document) (sysPrompt : String) (history : List ChatMsg)
    (q : String) : List ChatMsg :=
  { role := "system", content := sysPrompt ++ "\n\nRelevant context:\n" ++ ragContext docs q }
    :: (history.drop (history.length - 5) ++ [{ role := "user", content := q }])

/-- RAGService.processQuery. The completion call can fail; a failure is
rethrown by the catch block and nothing is persisted, because both
createMessage calls come after the await of the completion. On success
the user message is persisted first (sources null), then the assistant
message carrying the retrieved sources. -/
def processQuery (completion : List ChatMsg → Except String String)
    (docs : List Document) (sysPrompt : String) (st : MsgStore) (chatId : Nat)
    (q : String) (history : List ChatMsg) (t1 t2 : Nat) :
    MsgStore × Except String (String × List (SourceRef ℚ)) :=
  let relevantSources := searchByKeywords docs q 3
  match completion (ragMessages docs sysPrompt history q) with
  | Except.error e => (st, Except.error e)
  | Except.ok response =>
    let r1 := createMessage st chatId "user" q none t1
    let r2 := createMessage r1.1 chatId "assistant" response (some relevantSources) t2
    (r2.1, Except.ok (response, relevantSources))

/-! ## Spec-side scoring definition

For the refinement comparison of claim C4 only: the score exactly as the
claim words it, over the retained (length greater than two) terms taken
as a set. -/

/-- Modelled from the claim wording, not from the source: lower-case the
query, split on whitespace, discard terms of length at most two, count
the distinct retained terms occurring in the lower-cased title plus
content, and divide by the number of retained terms. -/
def specKeywordScore (q : String) (d : Document) : ℚ :=
  let terms := ((jsSplitWs (jsToLower q)).filter (fun t => t.length > 2)).dedup
  let text := jsToLower (d.title ++ " " ++ d.content)
  let matched := (terms.filter (fun t => jsIncludes text t)).length
  if terms.length = 0 then 0 else (matched : ℚ) / (terms.length : ℚ)

/-! ## Stable sort lemmas -/

theorem mem_stableInsert {α : Type} (before : α → α → Bool) (x a : α) (l : List α) :
    a ∈ stableInsert before x l ↔ a = x ∨ a ∈ l := by
  induction l with
  | nil => simp [stableInsert]
  | cons y ys ih =>
    by_cases h : before y x
    · simp [stableInsert, h, ih]
      tauto
    · simp [stableInsert, h]

theorem stableInsert_perm {α : Type} (before : α → α → Bool) (x : α) (l : List α) :
    (stableInsert before x l).Perm (x :: l) := by
  induction l with
  | nil => simp [stableInsert]
  | cons y ys ih =>
    by_cases h : before y x
    · simpa [stableInsert, h] using (ih.cons y).trans (List.Perm.swap x y ys)
    · simp [stableInsert, h]

theorem stableSort_perm {α : Type} (before : α → α → Bool) (l : List α) :
    (stableSort before l).Perm l := by
  induction l with
  | nil => simp [stableSort]
  | cons x xs ih =>
    exact (stableInsert_perm before x (stableSort before xs)).trans (ih.cons x)

theorem length_stableSort {α : Type} (before : α → α → Bool) (l : List α) :
    (stableSort before l).length = l.length :=
  (stableSort_perm before l).length_eq

theorem pairwise_stableInsert {α : Type} (before : α → α → Bool)
    (hasym : ∀ a b, before a b = true → before b a = false)
    (htrans : ∀ a b c, before b a = false → before c b = false → before c a = false)
    (x : α) (l : List α) (hl : l.Pairwise (fun a b => before b a = false)) :
    (stableInsert before x l).Pairwise (fun a b => before b a = false) := by
  induction l with
  | nil => simp [stableInsert]
  | cons y ys ih =>
    rw [List.pairwise_cons] at hl
    obtain ⟨hy, hys⟩ := hl
    by_cases h : before y x
    · rw [stableInsert, if_pos h, List.pairwise_cons]
      refine ⟨?_, ih hys⟩
      intro z hz
      rcases (mem_stableInsert before x z ys).mp hz with rfl | hzys
      · exact hasym y z h
      · exact hy z hzys
    · rw [stableInsert, if_neg h, List.pairwise_cons]
      have hyx : before y x = false := by
        cases hb : before y x
        · rfl
        · exact absurd hb h
      refine ⟨?_, List.pairwise_cons.mpr ⟨hy, hys⟩⟩
      intro z hz
      rcases List.mem_cons.mp hz with rfl | hzys
      · exact hyx
      · exact htrans x y z hyx (hy z hzys)

theorem pairwise_stableSort {α : Type} (before : α → α → Bool)
    (hasym : ∀ a b, before a b = true → before b a = false)
    (htrans : ∀ a b c, before b a = false → before c b = false → before c a = false)
    (l : List α) :
    (stableSort before l).Pairwise (fun a b => before b a = false) := by
  induction l with
  | nil => simp [stableSort]
  | cons x xs ih =>
    exact pairwise_stableInsert before hasym htrans x (stableSort before xs) ih

theorem filter_stableInsert_pos {α : Type} (before : α → α → Bool) (p : α → Bool)
    (x : α) (l : List α) (hx : p x = true)
    (hskip : ∀ y ∈ l, before y x = true → p y = false) :
    (stableInsert before x l).filter p = x :: l.filter p := by
  induction l with
  | nil => simp [stableInsert, hx]
  | cons y ys ih =>
    by_cases h : before y x
    · have hpy : p y = false := hskip y (List.mem_cons_self y ys) h
      rw [stableInsert, if_pos h, List.filter_cons, List.filter_cons]
      simp only [hpy, cond_false]
      exact ih (fun z hz hb => hskip z (List.mem_cons_of_mem y hz) hb)
    · rw [stableInsert, if_neg h, List.filter_cons]
      simp [hx]

theorem filter_stableInsert_neg {α : Type} (before : α → α → Bool) (p : α → Bool)
    (x : α) (l : List α) (hx : p x = false) :
    (stableInsert before x l).filter p = l.filter p := by
  induction l with
  | nil => simp [stableInsert, hx]
  | cons y ys ih =>
    by_cases h : before y x
    · rw [stableInsert, if_pos h, List.filter_cons, List.filter_cons, ih]
    · rw [stableInsert, if_neg h, List.filter_cons]
      simp [hx]

/-- Stability of the sort: filtering by any predicate closed under
being-ordered-before (such as having one fixed score) returns the
elements in their input order. -/
theorem filter_stableSort {α : Type} (before : α → α → Bool) (p : α → Bool)
    (hcompat : ∀ x y, p x = true → before y x = true → p y = false) (l : List α) :
    (stableSort before l).filter p = l.filter p := by
  induction l with
  | nil => rfl
  | cons x xs ih =>
    show (stableInsert before x (stableSort before xs)).filter p = _
    by_cases hx : p x
    · rw [filter_stableInsert_pos before p x (stableSort before xs) hx
        (fun y _ hb => hcompat x y hx hb), ih, List.filter_cons]
      simp [hx]
    · have hx' : p x = false := by
        cases hb : p x
        · rfl
        · exact absurd hb hx
      rw [filter_stableInsert_neg before p x (stableSort before xs) hx', ih, List.filter_cons]
      simp [hx']

/-! ## Instantiated sort facts -/

theorem sortDescByScore_sorted {α : Type} [LinearOrder α] (l : List (SourceRef α)) :
    (sortDescByScore l).Pairwise
      (fun a b : SourceRef α => b.relevanceScore ≤ a.relevanceScore) := by
  have h := pairwise_stableSort
    (fun u v : SourceRef α => decide (v.relevanceScore < u.relevanceScore))
    (fun a b hab => by
      simp only [decide_eq_true_eq] at hab
      exact decide_eq_false (not_lt_of_gt hab))
    (fun a b c hba hcb => by
      simp only [decide_eq_false_iff_not, not_lt] at hba hcb ⊢
      exact hcb.trans hba)
    l
  refine h.imp ?_
  intro a b hab
  simpa [decide_eq_false_iff_not, not_lt] using hab

theorem sortAscByCreated_sorted (l : List Message) :
    (sortAscByCreated l).Pairwise
      (fun a b : Message => a.createdAt ≤ b.createdAt) := by
  have h := pairwise_stableSort
    (fun u v : Message => decide (u.createdAt < v.createdAt))
    (fun a b hab => by
      simp only [decide_eq_true_eq] at hab
      exact decide_eq_false (not_lt_of_gt hab))
    (fun a b c hba hcb => by
      simp only [decide_eq_false_iff_not, not_lt] at hba hcb ⊢
      exact hba.trans hcb)
    l
  refine h.imp ?_
  intro a b hab
  simpa [decide_eq_false_iff_not, not_lt] using hab

theorem sortDescByCreated_sorted (l : List Message) :
    (sortDescByCreated l).Pairwise
      (fun a b : Message => b.createdAt ≤ a.createdAt) := by
  have h := pairwise_stableSort
    (fun u v : Message => decide (v.createdAt < u.createdAt))
    (fun a b hab => by
      simp only [decide_eq_true_eq] at hab
      exact decide_eq_false (not_lt_of_gt hab))
    (fun a b c hba hcb => by
      simp only [decide_eq_false_iff_not, not_lt] at hba hcb ⊢
      exact hcb.trans hba)
    l
  refine h.imp ?_
  intro a b hab
  simpa [decide_eq_false_iff_not, not_lt] using hab

/-! ## Helper lemmas about the keyword search -/

theorem foldl_count_eq_countP {α : Type} (p : α → Bool) (l : List α) (n : Nat) :
    l.foldl (fun acc a => if p a then acc + 1 else acc) n = n + l.countP p := by
  induction l generalizing n with
  | nil => simp
  | cons a t ih =>
    by_cases h : p a
    · simp [List.countP_cons, h, ih]
      omega
    · simp [List.countP_cons, h, ih]

theorem splitWsGo_ne_nil (l acc : List Char) (prevWs : Bool) :
    splitWsGo l acc prevWs ≠ [] := by
  induction l generalizing acc prevWs with
  | nil => simp [splitWsGo]
  | cons c rest ih =>
    by_cases hws : isWsChar c
    · by_cases hp : prevWs
      · simpa [splitWsGo, hws, hp] using ih [] true
      · simp [splitWsGo, hws, hp]
    · simpa [splitWsGo, hws] using ih (c :: acc) false

theorem jsSplitWs_ne_nil (s : String) : jsSplitWs s ≠ [] := by
  intro h
  exact splitWsGo_ne_nil s.toList [] false (by simpa [jsSplitWs] using h)

theorem jsSplitWs_length_pos (s : String) : 0 < (jsSplitWs s).length :=
  List.length_pos.mpr (jsSplitWs_ne_nil s)

theorem searchByKeywords_eq (docs : List Document) (q : String) (limit : Nat)
    (h : jsTrim q ≠ "") :
    searchByKeywords docs q limit =
      (sortDescByScore (docs.map (scoreDocument (jsSplitWs (jsToLower q))))).take limit := by
  rw [searchByKeywords, if_neg h]

/-- The score computed by scoreDocument, rewritten through List.countP. -/
theorem scoreDocument_score (keywords : List String) (d : Document)
    (h : 0 < keywords.length) :
    (scoreDocument keywords d).relevanceScore =
      ((keywords.countP
          (fun kw => kw.length > 2 && jsIncludes (jsToLower (d.title ++ " " ++ d.content)) kw) : ℚ))
        / ((keywords.length : ℚ)) := by
  show (if keywords.length > 0 then _ else (0 : ℚ)) = _
  rw [if_pos h, foldl_count_eq_countP]
  simp

/-- Every reference returned by the non-empty-query branch of the
keyword search comes from a stored document and carries the match-count
over token-count score of that document. -/
theorem searchByKeywords_mem_score (docs : List Document) (q : String) (limit : Nat)
    (h : jsTrim q ≠ "") (r : SourceRef ℚ) (hr : r ∈ searchByKeywords docs q limit) :
    ∃ d ∈ docs, r.id = d.id ∧
      r.relevanceScore =
        (((jsSplitWs (jsToLower q)).countP
            (fun kw => kw.length > 2 &&
              jsIncludes (jsToLower (d.title ++ " " ++ d.content)) kw) : ℚ))
          / (((jsSplitWs (jsToLower q)).length : ℚ)) := by
  rw [searchByKeywords_eq docs q limit h] at hr
  have hr2 : r ∈ sortDescByScore (docs.map (scoreDocument (jsSplitWs (jsToLower q)))) :=
    (List.take_sublist _ _).subset hr
  have hr3 : r ∈ docs.map (scoreDocument (jsSplitWs (jsToLower q))) :=
    ((stableSort_perm _ _).mem_iff).mp hr2
  obtain ⟨d, hd, rfl⟩ := List.mem_map.mp hr3
  exact ⟨d, hd, rfl, scoreDocument_score _ d (jsSplitWs_length_pos _)⟩

/-! ## Concrete fixtures -/

def dFaith : Document :=
  { id := 1, title := "Faith", content := "faith is a virtue", source := "s", category := "c" }

def dTwo : Document :=
  { id := 2, title := "Faith two", content := "faith", source := "s", category := "c" }

def dOne : Document :=
  { id := 1, title := "Faith one", content := "faith", source := "s", category := "c" }

def mkMsg (i : Nat) : Message :=
  { id := i, chatId := 1, role := "user", content := "m", sources := none, createdAt := i }

def completionOk : List ChatMsg → Except String String :=
  fun _ => Except.ok "placeholder reply"

def completionErr : List ChatMsg → Except String String :=
  fun _ => Except.error "boom"

def emptyStore : MsgStore := { chats := [], messages := [], nextMessageId := 1 }

/-! ## Claims -/

/-- C1: when the completion provider call succeeds, processQuery persists
exactly two new messages, first a user message with content equal to the
query and sources absent, then an assistant message whose sources field
is the retrieved source sequence, and the returned sources equal that
assistant message's persisted sources. -/
theorem claim_C1_processQuery_persists_two (completion : List ChatMsg → Except String String)
    (docs : List Document) (sysPrompt : String) (st : MsgStore) (chatId : Nat)
    (q : String) (history : List ChatMsg) (t1 t2 : Nat) (resp : String)
    (h : completion (ragMessages docs sysPrompt history q) = Except.ok resp) :
    ∃ um am : Message,
      (processQuery completion docs sysPrompt st chatId q history t1 t2).1.messages =
        st.messages ++ [um, am] ∧
      um.role = "user" ∧ um.content = q ∧ um.sources = none ∧ um.chatId = chatId ∧
      am.role = "assistant" ∧ am.content = resp ∧ am.chatId = chatId ∧
      am.sources = some (searchByKeywords docs q 3) ∧
      (processQuery completion docs sysPrompt st chatId q history t1 t2).2 =
        Except.ok (resp, searchByKeywords docs q 3) := by
  have key : processQuery completion docs sysPrompt st chatId q history t1 t2 =
      (let r1 := createMessage st chatId "user" q none t1
       let r2 := createMessage r1.1 chatId "assistant" resp
         (some (searchByKeywords docs q 3)) t2
       (r2.1, Except.ok (resp, searchByKeywords docs q 3))) := by
    rw [processQuery, h]
  rw [key]
  refine ⟨{ id := st.nextMessageId, chatId := chatId, role := "user", content := q,
            sources := none, createdAt := t1 },
          { id := st.nextMessageId + 1, chatId := chatId, role := "assistant",
            content := resp, sources := some (searchByKeywords docs q 3), createdAt := t2 },
          ?_, rfl, rfl, rfl, rfl, rfl, rfl, rfl, rfl, rfl⟩
  simp [createMessage]

/-- C1 witness at a concrete call. -/
theorem claim_C1_witness :
    completionOk (ragMessages [] "sys" [] "hello") = Except.ok "placeholder reply" ∧
    ∃ um am : Message,
      (processQuery completionOk [] "sys" emptyStore 7 "hello" [] 10 11).1.messages =
        emptyStore.messages ++ [um, am] ∧
      um.role = "user" ∧ um.content = "hello" ∧ um.sources = none ∧ um.chatId = 7 ∧
      am.role = "assistant" ∧ am.content = "placeholder reply" ∧ am.chatId = 7 ∧
      am.sources = some (searchByKeywords [] "hello" 3) ∧
      (processQuery completionOk [] "sys" emptyStore 7 "hello" [] 10 11).2 =
        Except.ok ("placeholder reply", searchByKeywords [] "hello" 3) :=
  ⟨rfl, claim_C1_processQuery_persists_two completionOk [] "sys" emptyStore 7 "hello" [] 10 11
    "placeholder reply" rfl⟩

/-- C2: when the completion provider call fails, processQuery leaves the
conversation store unchanged and propagates the failure; no user message
is persisted without its assistant message. The keyword retrieval itself
is a total function in this code and cannot fail. -/
theorem claim_C2_processQuery_aborts (completion : List ChatMsg → Except String String)
    (docs : List Document) (sysPrompt : String) (st : MsgStore) (chatId : Nat)
    (q : String) (history : List ChatMsg) (t1 t2 : Nat) (e : String)
    (h : completion (ragMessages docs sysPrompt history q) = Except.error e) :
    processQuery completion docs sysPrompt st chatId q history t1 t2 =
      (st, Except.error e) := by
  rw [processQuery, h]

/-- C2 witness at a concrete call. -/
theorem claim_C2_witness :
    completionErr (ragMessages [] "sys" [] "hello") = Except.error "boom" ∧
    processQuery completionErr [] "sys" emptyStore 7 "hello" [] 10 11 =
      (emptyStore, Except.error "boom") :=
  ⟨rfl, claim_C2_processQuery_aborts completionErr [] "sys" emptyStore 7 "hello" [] 10 11
    "boom" rfl⟩

/-- C10: for a query that is not whitespace-only, keyword search scores
every stored document, matching or not, so the result holds exactly
min(limit, number of documents) entries and is never empty when the
store is non-empty and the limit positive. -/
theorem claim_C10_keyword_search_total (docs : List Document) (q : String) (limit : Nat)
    (h : jsTrim q ≠ "") :
    (searchByKeywords docs q limit).length = min limit docs.length ∧
    (0 < limit → docs ≠ [] → searchByKeywords docs q limit ≠ []) := by
  have hlen : (searchByKeywords docs q limit).length = min limit docs.length := by
    rw [searchByKeywords_eq docs q limit h, List.length_take, sortDescByScore,
      length_stableSort, List.length_map]
  refine ⟨hlen, ?_⟩
  intro hpos hne
  have : 0 < (searchByKeywords docs q limit).length := by
    rw [hlen]
    exact lt_min hpos (List.length_pos.mpr hne)
  exact List.ne_nil_of_length_pos this

/-- C10 witness at a concrete store and query. -/
theorem claim_C10_witness :
    jsTrim "unmatchable" ≠ "" ∧
    ((searchByKeywords [dTwo, dOne] "unmatchable" 5).length = min 5 [dTwo, dOne].length ∧
      (0 < 5 → [dTwo, dOne] ≠ [] → searchByKeywords [dTwo, dOne] "unmatchable" 5 ≠ [])) :=
  ⟨by decide, claim_C10_keyword_search_total [dTwo, dOne] "unmatchable" 5 (by decide)⟩

/-- C4 counterexample: on the query "is faith" the code scores the
document 1/2, dividing the single match by the total token count two,
while the claim prescribes dividing by the retained term count one,
giving score one. -/
theorem claim_C4_counterexample :
    (searchByKeywords [dFaith] "is faith" 5).map (fun r => r.relevanceScore) = [1/2] ∧
    specKeywordScore "is faith" dFaith = 1 ∧ ((1 : ℚ)/2 ≠ 1) := by
  have h : searchByKeywords [dFaith] "is faith" 5 =
      [SourceRef.ofDoc dFaith (((1 : ℕ) : ℚ) / ((2 : ℕ) : ℚ))] := rfl
  have h2 : specKeywordScore "is faith" dFaith = ((1 : ℕ) : ℚ) / ((1 : ℕ) : ℚ) := rfl
  rw [h, h2]
  refine ⟨?_, by norm_num, by norm_num⟩
  simp [SourceRef.ofDoc]

/-- C4 amended: the score of every returned reference is the match count
divided by the total number of whitespace-split tokens of the lower-cased
query, where the match count counts, with multiplicity, the tokens of
length greater than two occurring in the lower-cased title plus content
of the source document. -/
theorem claim_C4_amended (docs : List Document) (q : String) (limit : Nat)
    (h : jsTrim q ≠ "") (r : SourceRef ℚ) (hr : r ∈ searchByKeywords docs q limit) :
    ∃ d ∈ docs, r.id = d.id ∧
      r.relevanceScore =
        (((jsSplitWs (jsToLower q)).countP
            (fun kw => kw.length > 2 &&
              jsIncludes (jsToLower (d.title ++ " " ++ d.content)) kw) : ℚ))
          / (((jsSplitWs (jsToLower q)).length : ℚ)) :=
  searchByKeywords_mem_score docs q limit h r hr

/-- C4 amended witness at a concrete query and store. -/
theorem claim_C4_witness :
    jsTrim "is faith" ≠ "" ∧
    (SourceRef.ofDoc dFaith (((1 : ℕ) : ℚ) / ((2 : ℕ) : ℚ)) ∈
      searchByKeywords [dFaith] "is faith" 5) ∧
    ∃ d ∈ [dFaith], (SourceRef.ofDoc dFaith (((1 : ℕ) : ℚ) / ((2 : ℕ) : ℚ))).id = d.id ∧
      (SourceRef.ofDoc dFaith (((1 : ℕ) : ℚ) / ((2 : ℕ) : ℚ))).relevanceScore =
        (((jsSplitWs (jsToLower "is faith")).countP
            (fun kw => kw.length > 2 &&
              jsIncludes (jsToLower (d.title ++ " " ++ d.content)) kw) : ℚ))
          / (((jsSplitWs (jsToLower "is faith")).length : ℚ)) :=
  ⟨by decide, by
    show SourceRef.ofDoc dFaith (((1 : ℕ) : ℚ) / ((2 : ℕ) : ℚ)) ∈
      [SourceRef.ofDoc dFaith (((1 : ℕ) : ℚ) / ((2 : ℕ) : ℚ))]
    exact List.mem_singleton_self _,
   claim_C4_amended [dFaith] "is faith" 5 (by decide) _ (by
    show SourceRef.ofDoc dFaith (((1 : ℕ) : ℚ) / ((2 : ℕ) : ℚ)) ∈
      [SourceRef.ofDoc dFaith (((1 : ℕ) : ℚ) / ((2 : ℕ) : ℚ))]
    exact List.mem_singleton_self _)⟩

/-- C7 counterexample: two documents with equal scores, the one with the
larger id added first, come back in store order 2 then 1, not in
ascending id order, because the sort comparator only compares scores and
the stable sort keeps ties in input order. -/
theorem claim_C7_counterexample :
    (searchByKeywords [dTwo, dOne] "faith" 5).map (fun r => r.id) = [2, 1] ∧
    (searchByKeywords [dTwo, dOne] "faith" 5).map (fun r => r.relevanceScore) = [1, 1] := by
  have h2 : scoreDocument ["faith"] dTwo = SourceRef.ofDoc dTwo (1 : ℚ) := by
    have e : scoreDocument ["faith"] dTwo =
        SourceRef.ofDoc dTwo (((1 : ℕ) : ℚ) / ((1 : ℕ) : ℚ)) := rfl
    rw [e]
    norm_num
  have h1 : scoreDocument ["faith"] dOne = SourceRef.ofDoc dOne (1 : ℚ) := by
    have e : scoreDocument ["faith"] dOne =
        SourceRef.ofDoc dOne (((1 : ℕ) : ℚ) / ((1 : ℕ) : ℚ)) := rfl
    rw [e]
    norm_num
  have hk : jsSplitWs (jsToLower "faith") = ["faith"] := rfl
  have hs : searchByKeywords [dTwo, dOne] "faith" 5 =
      (sortDescByScore [SourceRef.ofDoc dTwo (1 : ℚ), SourceRef.ofDoc dOne 1]).take 5 := by
    rw [searchByKeywords_eq _ _ _ (by decide), hk]
    simp [h2, h1]
  have hsort : sortDescByScore [SourceRef.ofDoc dTwo (1 : ℚ), SourceRef.ofDoc dOne 1] =
      [SourceRef.ofDoc dTwo 1, SourceRef.ofDoc dOne 1] := by
    simp [sortDescByScore, stableSort, stableInsert, SourceRef.ofDoc]
  rw [hs, hsort]
  constructor <;> simp [SourceRef.ofDoc, dTwo, dOne]

/-- C7 amended: the result is the scored store sorted by descending
relevance score and truncated to the first limit entries; the sort is
stable, so entries of equal score keep the store insertion order rather
than being reordered by ascending id. -/
theorem claim_C7_amended (docs : List Document) (q : String) (limit : Nat)
    (h : jsTrim q ≠ "") :
    searchByKeywords docs q limit =
      (sortDescByScore (docs.map (scoreDocument (jsSplitWs (jsToLower q))))).take limit ∧
    (searchByKeywords docs q limit).Pairwise
      (fun a b => b.relevanceScore ≤ a.relevanceScore) ∧
    (searchByKeywords docs q limit).length = min limit docs.length ∧
    ∀ s : ℚ,
      (sortDescByScore (docs.map (scoreDocument (jsSplitWs (jsToLower q))))).filter
          (fun r => r.relevanceScore == s) =
        (docs.map (scoreDocument (jsSplitWs (jsToLower q)))).filter
          (fun r => r.relevanceScore == s) := by
  refine ⟨searchByKeywords_eq docs q limit h, ?_, ?_, ?_⟩
  · rw [searchByKeywords_eq docs q limit h]
    exact List.Pairwise.sublist (List.take_sublist _ _) (sortDescByScore_sorted _)
  · rw [searchByKeywords_eq docs q limit h, List.length_take, sortDescByScore,
      length_stableSort, List.length_map]
  · intro s
    refine filter_stableSort _ _ ?_ _
    intro x y hx hb
    have hxs : x.relevanceScore = s := by simpa using hx
    have hlt : x.relevanceScore < y.relevanceScore := by simpa using hb
    have hgt : s < y.relevanceScore := hxs ▸ hlt
    simpa using ne_of_gt hgt

/-- C7 amended witness at a concrete store and query. -/
theorem claim_C7_witness :
    jsTrim "faith" ≠ "" ∧
    (searchByKeywords [dTwo, dOne] "faith" 5 =
        (sortDescByScore ([dTwo, dOne].map (scoreDocument (jsSplitWs (jsToLower "faith"))))).take 5 ∧
      (searchByKeywords [dTwo, dOne] "faith" 5).Pairwise
        (fun a b => b.relevanceScore ≤ a.relevanceScore) ∧
      (searchByKeywords [dTwo, dOne] "faith" 5).length = min 5 [dTwo, dOne].length ∧
      ∀ s : ℚ,
        (sortDescByScore ([dTwo, dOne].map (scoreDocument (jsSplitWs (jsToLower "faith"))))).filter
            (fun r => r.relevanceScore == s) =
          ([dTwo, dOne].map (scoreDocument (jsSplitWs (jsToLower "faith")))).filter
            (fun r => r.relevanceScore == s)) :=
  ⟨by decide, claim_C7_amended [dTwo, dOne] "faith" 5 (by decide)⟩

/-! ## Fixtures for the vector search claims -/

def dNeg : Document :=
  { id := 1, title := "D", content := "c", source := "s", category := "cat" }

def dMatch : Document :=
  { id := 2, title := "E", content := "e", source := "s", category := "cat" }

/-- A store holding one embedded document whose vector points opposite
to the query vector used below. -/
def storeNeg : VectorStore :=
  { documentVectors := [(dNeg, [-1])], documents := [dNeg] }

/-- A store holding one document whose vector length matches the query
vector used below and one whose vector length does not. -/
def storeMix : VectorStore :=
  { documentVectors := [(dNeg, [1]), (dMatch, [1, 0])], documents := [dNeg, dMatch] }

/-- C5 counterexample: the similarity search returns the raw cosine
similarity without clamping, so a stored vector opposite to the query
produces a reference whose relevanceScore is negative. -/
theorem claim_C5_counterexample :
    ∃ l, searchSimilarDocuments storeNeg [1] 5 = Except.ok l ∧
      ∃ r ∈ l, r.relevanceScore < 0 := by
  have hcs : cosineSimilarity [1] [-1] = Except.ok (-1 : ℝ) := by
    have e : cosineSimilarity [1] [-1] =
        Except.ok ((((0 + 1 * -1 : ℚ)) : ℝ) /
          (Real.sqrt ((0 + 1 * 1 : ℚ) : ℝ) * Real.sqrt ((0 + -1 * -1 : ℚ) : ℝ))) := by
      rw [cosineSimilarity, if_neg (by decide), if_neg (by norm_num)]
      rfl
    rw [e]
    norm_num
  have hse : scoreEntry [1] (dNeg, [-1]) = Except.ok (SourceRef.ofDoc dNeg (-1 : ℝ)) := by
    rw [scoreEntry, hcs]
  have hmap : mapExcept (scoreEntry [1]) storeNeg.documentVectors =
      Except.ok [SourceRef.ofDoc dNeg (-1 : ℝ)] := by
    show mapExcept (scoreEntry [1]) [(dNeg, [-1])] = _
    rw [mapExcept, hse, mapExcept]
  refine ⟨[SourceRef.ofDoc dNeg (-1 : ℝ)], ?_, SourceRef.ofDoc dNeg (-1 : ℝ),
    List.mem_singleton_self _, by norm_num [SourceRef.ofDoc]⟩
  rw [searchSimilarDocuments, if_neg (by decide), hmap]
  rfl

/-- C5 amended: every reference produced by the keyword search carries a
relevance score in the closed interval from zero to one; the vector
similarity search returns the raw cosine similarity, which is not clamped
and can be negative. -/
theorem claim_C5_amended (docs : List Document) (q : String) (limit : Nat)
    (r : SourceRef ℚ) (hr : r ∈ searchByKeywords docs q limit) :
    0 ≤ r.relevanceScore ∧ r.relevanceScore ≤ 1 := by
  by_cases h : jsTrim q = ""
  · rw [searchByKeywords, if_pos h] at hr
    obtain ⟨d, _, rfl⟩ := List.mem_map.mp hr
    constructor <;> norm_num [SourceRef.ofDoc]
  · obtain ⟨d, _, _, hscore⟩ := searchByKeywords_mem_score docs q limit h r hr
    rw [hscore]
    have hpos : (0 : ℚ) < ((jsSplitWs (jsToLower q)).length : ℚ) := by
      exact_mod_cast jsSplitWs_length_pos (jsToLower q)
    constructor
    · exact div_nonneg (by positivity) hpos.le
    · rw [div_le_one hpos]
      exact_mod_cast List.countP_le_length _

/-- C5 amended witness at a concrete membership. -/
theorem claim_C5_witness :
    (SourceRef.ofDoc dFaith (((1 : ℕ) : ℚ) / ((2 : ℕ) : ℚ)) ∈
      searchByKeywords [dFaith] "is faith" 5) ∧
    (0 ≤ (SourceRef.ofDoc dFaith (((1 : ℕ) : ℚ) / ((2 : ℕ) : ℚ))).relevanceScore ∧
      (SourceRef.ofDoc dFaith (((1 : ℕ) : ℚ) / ((2 : ℕ) : ℚ))).relevanceScore ≤ 1) :=
  ⟨by
    show SourceRef.ofDoc dFaith (((1 : ℕ) : ℚ) / ((2 : ℕ) : ℚ)) ∈
      [SourceRef.ofDoc dFaith (((1 : ℕ) : ℚ) / ((2 : ℕ) : ℚ))]
    exact List.mem_singleton_self _,
   claim_C5_amended [dFaith] "is faith" 5 _ (by
    show SourceRef.ofDoc dFaith (((1 : ℕ) : ℚ) / ((2 : ℕ) : ℚ)) ∈
      [SourceRef.ofDoc dFaith (((1 : ℕ) : ℚ) / ((2 : ℕ) : ℚ))]
    exact List.mem_singleton_self _)⟩

/-! ## Helper lemmas for the similarity search error path -/

theorem cosineSimilarity_ok (vecA vecB : List ℚ) (h : vecA.length = vecB.length) :
    ∃ x, cosineSimilarity vecA vecB = Except.ok x := by
  rw [cosineSimilarity, if_neg (not_not_intro h)]
  by_cases h2 : (vecA.foldl (fun acc x => acc + x * x) 0 : ℚ) = 0 ∨
      (vecB.foldl (fun acc x => acc + x * x) 0 : ℚ) = 0
  · exact ⟨0, by rw [if_pos h2]⟩
  · exact ⟨_, by rw [if_neg h2]⟩

theorem scoreEntry_ok (qv : List ℚ) (dv : Document × List ℚ)
    (h : qv.length = dv.2.length) : ∃ r, scoreEntry qv dv = Except.ok r := by
  obtain ⟨x, hx⟩ := cosineSimilarity_ok qv dv.2 h
  exact ⟨_, by rw [scoreEntry, hx]⟩

theorem scoreEntry_err (qv : List ℚ) (dv : Document × List ℚ)
    (h : qv.length ≠ dv.2.length) :
    scoreEntry qv dv = Except.error "Vectors must be of the same length" := by
  rw [scoreEntry, cosineSimilarity, if_pos h]

theorem mapExcept_scoreEntry_err (qv : List ℚ) (l : List (Document × List ℚ))
    (h : ∃ dv ∈ l, dv.2.length ≠ qv.length) :
    mapExcept (scoreEntry qv) l = Except.error "Vectors must be of the same length" := by
  induction l with
  | nil => simp at h
  | cons a t ih =>
    by_cases ha : qv.length = a.2.length
    · obtain ⟨r, hr⟩ := scoreEntry_ok qv a ha
      rw [mapExcept, hr]
      have ht : ∃ dv ∈ t, dv.2.length ≠ qv.length := by
        rcases h with ⟨dv, hdv, hne⟩
        rcases List.mem_cons.mp hdv with rfl | hmem
        · exact absurd ha.symm hne
        · exact ⟨dv, hmem, hne⟩
      rw [ih ht]
    · rw [mapExcept, scoreEntry_err qv a ha]

/-- C6 counterexample: a store whose first embedded document has a
vector of mismatched length makes the whole similarity search fail with
the length-mismatch error instead of skipping that document; nothing is
returned, not even the score of the matching second document. -/
theorem claim_C6_counterexample :
    searchSimilarDocuments storeMix [1, 0] 5 =
      Except.error "Vectors must be of the same length" := rfl

/-- C6 amended: if any stored vector has a length different from the
query vector, the whole similarity search fails with the length-mismatch
error: the offending document is not skipped and no results are
returned. -/
theorem claim_C6_amended (s : VectorStore) (qv : List ℚ) (limit : Nat)
    (h1 : s.documentVectors ≠ [])
    (h2 : ∃ dv ∈ s.documentVectors, dv.2.length ≠ qv.length) :
    searchSimilarDocuments s qv limit =
      Except.error "Vectors must be of the same length" := by
  rw [searchSimilarDocuments, if_neg (List.length_pos.mpr h1).ne',
    mapExcept_scoreEntry_err qv _ h2]

/-- C6 amended witness at a concrete store and query vector. -/
theorem claim_C6_witness :
    storeMix.documentVectors ≠ [] ∧
    (∃ dv ∈ storeMix.documentVectors, dv.2.length ≠ ([1, 0] : List ℚ).length) ∧
    searchSimilarDocuments storeMix [1, 0] 5 =
      Except.error "Vectors must be of the same length" :=
  ⟨by decide, ⟨(dNeg, [1]), List.mem_cons_self _ _, by decide⟩,
   claim_C6_amended storeMix [1, 0] 5 (by decide)
     ⟨(dNeg, [1]), List.mem_cons_self _ _, by decide⟩⟩

/-! ## Conversation store claims -/

theorem sortAscByCreated_perm (l : List Message) : (sortAscByCreated l).Perm l :=
  stableSort_perm _ l

theorem sortDescByCreated_perm (l : List Message) : (sortDescByCreated l).Perm l :=
  stableSort_perm _ l

def cW : Chat := { id := 1, title := "t", userId := none, createdAt := 0 }

def stC3 : MsgStore :=
  { chats := [cW],
    messages := [mkMsg 1, mkMsg 2, mkMsg 3, mkMsg 4, mkMsg 5, mkMsg 6],
    nextMessageId := 7 }

/-- C3 at the failing input: deleting a chat that holds six messages
reports success and makes getChat absent, but deleteChat collects the
doomed messages through the capped getMessagesByChatId, so only the five
most recent messages die and the oldest message is still returned by a
later getMessagesByChatId, which the claim says must be empty. -/
theorem claim_C3_failing_input :
    (deleteChat stC3 1).2 = true ∧
    getChat (deleteChat stC3 1).1 1 = none ∧
    getMessagesByChatId (deleteChat stC3 1).1.messages 1 = [mkMsg 1] := by decide

def msgsC8 : List Message :=
  [mkMsg 1, mkMsg 2, mkMsg 3, mkMsg 4, mkMsg 5, mkMsg 6, mkMsg 7]

/-- C8: getMessagesByChatId returns at most five messages, in ascending
creation-time order, and every message of the chat left out is no newer
than any returned one, so the returned messages are the most recent. -/
theorem claim_C8_messages_capped (msgs : List Message) (chatId : Nat) :
    (getMessagesByChatId msgs chatId).length ≤ 5 ∧
    (getMessagesByChatId msgs chatId).Pairwise
      (fun a b => a.createdAt ≤ b.createdAt) ∧
    ∀ m ∈ msgs.filter (fun x => x.chatId == chatId),
      m ∉ getMessagesByChatId msgs chatId →
      ∀ y ∈ getMessagesByChatId msgs chatId, m.createdAt ≤ y.createdAt := by
  have hdef : getMessagesByChatId msgs chatId =
      (sortAscByCreated (msgs.filter (fun m => m.chatId == chatId))).drop
        ((sortAscByCreated (msgs.filter (fun m => m.chatId == chatId))).length - 5) := rfl
  set sorted := sortAscByCreated (msgs.filter (fun m => m.chatId == chatId)) with hs
  have hsortpw : sorted.Pairwise (fun a b => a.createdAt ≤ b.createdAt) :=
    sortAscByCreated_sorted _
  refine ⟨?_, ?_, ?_⟩
  · rw [hdef, List.length_drop]
    omega
  · rw [hdef]
    exact List.Pairwise.sublist (List.drop_sublist _ _) hsortpw
  · intro m hm hnot y hy
    have hmem : m ∈ sorted := (sortAscByCreated_perm _).mem_iff.mpr hm
    have hsplit := List.take_append_drop (sorted.length - 5) sorted
    have hpw2 : (sorted.take (sorted.length - 5) ++
        sorted.drop (sorted.length - 5)).Pairwise
        (fun a b => a.createdAt ≤ b.createdAt) := by
      rw [hsplit]
      exact hsortpw
    have hcross := (List.pairwise_append.mp hpw2).2.2
    have hmem2 : m ∈ sorted.take (sorted.length - 5) ++
        sorted.drop (sorted.length - 5) := by
      rw [hsplit]
      exact hmem
    have hmtake : m ∈ sorted.take (sorted.length - 5) := by
      rcases List.mem_append.mp hmem2 with h | h
      · exact h
      · rw [← hdef] at h
        exact absurd h hnot
    refine hcross m hmtake y ?_
    rw [hdef] at hy
    exact hy

/-- C8 witness at a chat holding seven messages. -/
theorem claim_C8_witness :
    (getMessagesByChatId msgsC8 1).length ≤ 5 ∧
    (getMessagesByChatId msgsC8 1).Pairwise (fun a b => a.createdAt ≤ b.createdAt) ∧
    (mkMsg 2).createdAt ≤ (mkMsg 7).createdAt :=
  ⟨(claim_C8_messages_capped msgsC8 1).1,
   (claim_C8_messages_capped msgsC8 1).2.1,
   (claim_C8_messages_capped msgsC8 1).2.2 (mkMsg 2) (by decide) (by decide)
     (mkMsg 7) (by decide)⟩

/-! ## Eviction sweep lemmas and claim C9 -/

theorem foldl_addToGroup_single (cid : Nat) (g rest : List Message)
    (h : ∀ m ∈ rest, m.chatId = cid) :
    rest.foldl addToGroup [(cid, g)] = [(cid, g ++ rest)] := by
  induction rest generalizing g with
  | nil => simp
  | cons m t ih =>
    have hm : m.chatId = cid := h m (List.mem_cons_self m t)
    have step : addToGroup [(cid, g)] m = [(cid, g ++ [m])] := by
      rw [addToGroup, if_pos hm.symm]
    rw [List.foldl_cons, step,
      ih (g ++ [m]) (fun x hx => h x (List.mem_cons_of_mem m hx))]
    simp

theorem groupByChat_single (cid : Nat) (msgs : List Message) (hne : msgs ≠ [])
    (h : ∀ m ∈ msgs, m.chatId = cid) : groupByChat msgs = [(cid, msgs)] := by
  cases msgs with
  | nil => exact absurd rfl hne
  | cons m t =>
    have hm : m.chatId = cid := h m (List.mem_cons_self m t)
    have h0 : addToGroup [] m = [(cid, [m])] := by
      rw [addToGroup, hm]
    rw [groupByChat, List.foldl_cons, h0,
      foldl_addToGroup_single cid [m] t (fun x hx => h x (List.mem_cons_of_mem m hx))]
    simp

/-- C9: a store holding one chat with twenty-five messages, all ids
distinct, is left by one eviction sweep with the chat intact and exactly
twenty messages, and every retained message was created no earlier than
every evicted one. -/
theorem claim_C9_eviction (c : Chat) (msgs : List Message)
    (hid : (msgs.map (fun m => m.id)).Nodup)
    (hchat : ∀ m ∈ msgs, m.chatId = c.id)
    (hlen : msgs.length = 25) :
    (cleanupOldData [c] msgs).1 = [c] ∧
    (cleanupOldData [c] msgs).2.length = 20 ∧
    ∀ k ∈ (cleanupOldData [c] msgs).2, ∀ m ∈ msgs,
      (∀ k2 ∈ (cleanupOldData [c] msgs).2, m.id ≠ k2.id) →
      m.createdAt ≤ k.createdAt := by
  have hne : msgs ≠ [] := by
    intro h
    rw [h] at hlen
    simp at hlen
  have hgroup : groupByChat msgs = [(c.id, msgs)] :=
    groupByChat_single c.id msgs hne hchat
  have h25 : ¬ msgs.length ≤ MAX_MESSAGES_PER_CHAT := by
    rw [hlen, MAX_MESSAGES_PER_CHAT]
    omega
  set S := sortDescByCreated msgs with hS
  set dead := (S.drop MAX_MESSAGES_PER_CHAT).map (fun m => m.id) with hdead
  set p : Message → Bool := fun m => !(dead.contains m.id) with hp
  have hevict : chatEvictIds msgs = dead := by
    rw [chatEvictIds, if_neg h25]
  have hclean : cleanupOldMessages msgs = msgs.filter p := by
    rw [cleanupOldMessages, hgroup]
    simp [hevict, hp]
  have hSperm : S.Perm msgs := sortDescByCreated_perm msgs
  have hSpw : S.Pairwise (fun a b => b.createdAt ≤ a.createdAt) :=
    sortDescByCreated_sorted msgs
  have hSlen : S.length = 25 := hSperm.length_eq.trans hlen
  have hSnodup : (S.map (fun m => m.id)).Nodup :=
    (hSperm.map (fun m => m.id)).nodup_iff.mpr hid
  have hsplit : S.take MAX_MESSAGES_PER_CHAT ++ S.drop MAX_MESSAGES_PER_CHAT = S :=
    List.take_append_drop _ _
  have hnodup2 : ((S.take MAX_MESSAGES_PER_CHAT).map (fun m => m.id) ++
      (S.drop MAX_MESSAGES_PER_CHAT).map (fun m => m.id)).Nodup := by
    rw [← List.map_append, hsplit]
    exact hSnodup
  have hdisj := (List.nodup_append.mp hnodup2).2.2
  have hKp : ∀ x ∈ S.take MAX_MESSAGES_PER_CHAT, p x = true := by
    intro x hx
    have hxid : x.id ∈ (S.take MAX_MESSAGES_PER_CHAT).map (fun m => m.id) :=
      List.mem_map_of_mem _ hx
    have hxnot : x.id ∉ dead := hdisj hxid
    simp [hp, hxnot]
  have hEp : ∀ y ∈ S.drop MAX_MESSAGES_PER_CHAT, p y = false := by
    intro y hy
    have hyid : y.id ∈ dead := by
      rw [hdead]
      exact List.mem_map_of_mem _ hy
    simp [hp, hyid]
  have h2 : S.filter p = S.take MAX_MESSAGES_PER_CHAT := by
    conv_lhs => rw [← hsplit]
    rw [List.filter_append, List.filter_eq_self.mpr hKp,
      List.filter_eq_nil_iff.mpr (fun a ha => by simp [hEp a ha])]
    exact List.append_nil _
  have hperm : (msgs.filter p).Perm (S.take MAX_MESSAGES_PER_CHAT) := by
    have h3 := hSperm.filter p
    rw [h2] at h3
    exact h3.symm
  have hlen20 : (msgs.filter p).length = 20 := by
    rw [hperm.length_eq, List.length_take, hSlen]
    decide
  have hchats : cleanupOldChats [c] (msgs.filter p) = ([c], msgs.filter p) := by
    rw [cleanupOldChats]
    have hg : groupChatsByUser [c] = [(chatUserKey c, [c])] := rfl
    have hu : userEvictChatIds [c] = [] := by
      rw [userEvictChatIds, if_pos (by simp [MAX_CHATS_PER_USER])]
    rw [hg]
    simp only [List.foldl_cons, List.foldl_nil, hu, List.append_nil, List.nil_append]
    rw [Prod.mk.injEq]
    exact ⟨List.filter_eq_self.mpr (fun a _ => rfl),
      List.filter_eq_self.mpr (fun a _ => rfl)⟩
  have hdata : cleanupOldData [c] msgs = ([c], msgs.filter p) := by
    rw [cleanupOldData, hclean, hchats]
    rw [if_neg ?_]
    show ¬ ((msgs.filter p).length > MAX_MESSAGES_TOTAL)
    rw [hlen20, MAX_MESSAGES_TOTAL]
    omega
  refine ⟨by rw [hdata], by rw [hdata]; exact hlen20, ?_⟩
  intro k hk m hm hm2
  rw [hdata] at hk hm2
  have hkK : k ∈ S.take MAX_MESSAGES_PER_CHAT := hperm.mem_iff.mp hk
  have hmS : m ∈ S := hSperm.mem_iff.mpr hm
  have hmE : m ∈ S.drop MAX_MESSAGES_PER_CHAT := by
    have hm3 : m ∈ S.take MAX_MESSAGES_PER_CHAT ++ S.drop MAX_MESSAGES_PER_CHAT := by
      rw [hsplit]
      exact hmS
    rcases List.mem_append.mp hm3 with h | h
    · exfalso
      have hpm : p m = true := hKp m h
      have hmf : m ∈ msgs.filter p := List.mem_filter.mpr ⟨hm, hpm⟩
      exact hm2 m hmf rfl
    · exact h
  have hpw2 : (S.take MAX_MESSAGES_PER_CHAT ++ S.drop MAX_MESSAGES_PER_CHAT).Pairwise
      (fun a b => b.createdAt ≤ a.createdAt) := by
    rw [hsplit]
    exact hSpw
  exact (List.pairwise_append.mp hpw2).2.2 k hkK m hmE

def msgs25 : List Message := (List.range 25).map (fun i => mkMsg (i + 1))

/-- C9 witness at a chat seeded with twenty-five concrete messages. -/
theorem claim_C9_witness :
    ((msgs25.map (fun m => m.id)).Nodup) ∧ (∀ m ∈ msgs25, m.chatId = cW.id) ∧
    msgs25.length = 25 ∧
    ((cleanupOldData [cW] msgs25).1 = [cW] ∧
      (cleanupOldData [cW] msgs25).2.length = 20 ∧
      ∀ k ∈ (cleanupOldData [cW] msgs25).2, ∀ m ∈ msgs25,
        (∀ k2 ∈ (cleanupOldData [cW] msgs25).2, m.id ≠ k2.id) →
        m.createdAt ≤ k.createdAt) :=
  ⟨by decide, by decide, by decide,
   claim_C9_eviction cW msgs25 (by decide) (by decide) (by decide)⟩

end FidesVera
